import Mathlib

/-!
Verification of the FinanceTracker expense-store core (expenses.py).

The SQLite-backed record store is embedded as a Lean structure: the
`expenses` table becomes a list of rows in rowid order, and the
`sqlite_sequence` entry for the table becomes a counter `seq` (0 when the
sequence row is absent).  REAL amounts are modelled as exact rationals;
the claims under study do not depend on binary floating-point rounding.
-/

/-- One row of the `expenses` table: `(id, date, category, amount)`. -/
structure Expense where
  id : Nat
  date : String
  category : String
  amount : ℚ
deriving DecidableEq

/-- The database state: stored rows in rowid order plus the
`sqlite_sequence` value for the table (last id handed out; 0 after the
sequence row is deleted or before any insert). -/
structure Store where
  rows : List Expense
  seq : Nat
deriving DecidableEq

/-- Fresh database right after `CREATE TABLE`: no rows, no sequence entry. -/
def initialStore : Store := { rows := [], seq := 0 }

/-- Numeric value of a list of ASCII digits, most significant first. -/
def digitsVal (l : List Char) : Nat :=
  l.foldl (fun n c => 10 * n + (c.toNat - 48)) 0

/-- Split a character list at every dash, like Python `split` on a single
separator: `splitDash "a-b"` is `[[a],[b]]`, and empty pieces are kept. -/
def splitDash (l : List Char) : List (List Char) :=
  l.foldr
    (fun c acc =>
      if c = '-' then [] :: acc
      else
        match acc with
        | t :: ts => (c :: t) :: ts
        | [] => [[c]])
    [[]]

/-- Lexicographic less-or-equal on character lists, the order SQLite's
binary collation gives to these ASCII strings. -/
def lexLeb : List Char → List Char → Bool
  | [], _ => true
  | _ :: _, [] => false
  | a :: as, b :: bs => if a < b then true else if b < a then false else lexLeb as bs

/-- Lexicographic less-or-equal on strings (SQLite text comparison). -/
def strLeb (a b : String) : Bool := lexLeb a.toList b.toList

/-- Join strings with a separator. -/
def joinWith (sep : String) : List String → String
  | [] => ""
  | [x] => x
  | x :: y :: xs => x ++ sep ++ joinWith sep (y :: xs)

/-- Leap-year rule used by `datetime` (proleptic Gregorian). -/
def isLeap (y : Nat) : Bool :=
  y % 4 = 0 && (y % 100 ≠ 0 || y % 400 = 0)

/-- Number of days of month `m` in year `y`, as in `datetime`. -/
def daysInMonth (y m : Nat) : Nat :=
  if m = 2 then (if isLeap y then 29 else 28)
  else if m = 4 ∨ m = 6 ∨ m = 9 ∨ m = 11 then 30
  else 31

/-- Month field as accepted by `strptime` directive `%m`: one digit `1`-`9`
or two digits `01`-`12` (the leading zero is optional, a documented
behaviour of `strptime`). -/
def monthOk (l : List Char) : Bool :=
  l.all Char.isDigit &&
    ((l.length = 1 && decide (1 ≤ digitsVal l)) ||
     (l.length = 2 && decide (1 ≤ digitsVal l) && decide (digitsVal l ≤ 12)))

/-- Day field as accepted by `strptime` directive `%d`: one digit `1`-`9`
or two digits `01`-`31` (leading zero optional). -/
def dayOk (l : List Char) : Bool :=
  l.all Char.isDigit &&
    ((l.length = 1 && decide (1 ≤ digitsVal l)) ||
     (l.length = 2 && decide (1 ≤ digitsVal l) && decide (digitsVal l ≤ 31)))

/-- `validate_date` of expenses.py: `datetime.strptime(date_text, "%Y-%m-%d")`
succeeds iff the string is `year-month-day` with a 4-digit year (at least
0001), month and day fields per `%m`/`%d` above, and a day that exists in
that month.  Note `strptime` accepts unpadded month/day such as
`2024-1-5`. -/
def validate_date (s : String) : Bool :=
  match splitDash s.toList with
  | [ys, ms, ds] =>
      ys.all Char.isDigit && decide (ys.length = 4) &&
      decide (1 ≤ digitsVal ys) &&
      monthOk ms && dayOk ds &&
      decide (digitsVal ds ≤ daysInMonth (digitsVal ys) (digitsVal ms))
  | _ => false

/-- Date validity as worded by the specification: a valid calendar date
written in zero-padded, fixed-width `YYYY-MM-DD` form.  This is the
spec-side predicate, kept separate so it can be compared with the code's
`validate_date`. -/
def specValidDate (s : String) : Bool :=
  match splitDash s.toList with
  | [ys, ms, ds] =>
      ys.all Char.isDigit && decide (ys.length = 4) &&
      ms.all Char.isDigit && decide (ms.length = 2) &&
      ds.all Char.isDigit && decide (ds.length = 2) &&
      decide (1 ≤ digitsVal ys) &&
      decide (1 ≤ digitsVal ms) && decide (digitsVal ms ≤ 12) &&
      decide (1 ≤ digitsVal ds) &&
      decide (digitsVal ds ≤ daysInMonth (digitsVal ys) (digitsVal ms))
  | _ => false

/-- Decimal part of Python `float(...)` string parsing: digits with an
optional decimal point (`d+`, `d+.`, `.d+`, `d+.d+`). -/
def parseDec (l : List Char) : Option ℚ :=
  let ip := l.takeWhile Char.isDigit
  let r1 := l.dropWhile Char.isDigit
  match r1 with
  | [] => if ip.isEmpty then none else some (digitsVal ip : ℚ)
  | '.' :: r2 =>
      let fp := r2.takeWhile Char.isDigit
      let r3 := r2.dropWhile Char.isDigit
      if r3.isEmpty && !(ip.isEmpty && fp.isEmpty) then
        some ((digitsVal ip : ℚ) + (digitsVal fp : ℚ) / (10 : ℚ) ^ fp.length)
      else none
  | _ => none

/-- Signed integer exponent after `e`/`E` in a float literal. -/
def parseExp (l : List Char) : Option ℤ :=
  match l with
  | '+' :: r => if !r.isEmpty && r.all Char.isDigit then some (digitsVal r : ℤ) else none
  | '-' :: r => if !r.isEmpty && r.all Char.isDigit then some (-(digitsVal r : ℤ)) else none
  | r => if !r.isEmpty && r.all Char.isDigit then some (digitsVal r : ℤ) else none

/-- Unsigned float literal: decimal mantissa with optional exponent. -/
def parseUnsigned (l : List Char) : Option ℚ :=
  let mant := l.takeWhile (fun c => !(c == 'e' || c == 'E'))
  let rest := l.dropWhile (fun c => !(c == 'e' || c == 'E'))
  match parseDec mant with
  | none => none
  | some q =>
      match rest with
      | [] => some q
      | _ :: es =>
          match parseExp es with
          | none => none
          | some z => some (q * (10 : ℚ) ^ z)

/-- Python `float(s)` on the decimal forms: surrounding whitespace is
stripped, then an optional sign precedes the mantissa/exponent.  The value
is modelled as an exact rational. -/
def parseFloat (s : String) : Option ℚ :=
  let l := ((s.toList.dropWhile Char.isWhitespace).reverse.dropWhile Char.isWhitespace).reverse
  match l with
  | '+' :: r => parseUnsigned r
  | '-' :: r => (parseUnsigned r).map Neg.neg
  | _ => parseUnsigned l

/-- `validate_amount` of expenses.py: `float(amount_text) > 0`, false when
the conversion raises `ValueError`. -/
def validate_amount (s : String) : Bool :=
  match parseFloat s with
  | some q => decide (0 < q)
  | none => false

/-- Outcome of `add_expense`: the status label identifies the failing
field, or the row that was inserted. -/
inductive AddResult where
  | invalidDate
  | emptyCategory
  | invalidAmount
  | added (e : Expense)
deriving DecidableEq

/-- `add_expense` of expenses.py: date, category and amount are checked in
that order; on the first failure the store is untouched and the status
message names the field.  Otherwise the row is inserted with the next
AUTOINCREMENT id (`seq + 1`). -/
def add_expense (st : Store) (date category amount : String) : Store × AddResult :=
  if validate_date date = false then (st, AddResult.invalidDate)
  else if category = "" then (st, AddResult.emptyCategory)
  else if validate_amount amount = false then (st, AddResult.invalidAmount)
  else
    ({ rows := st.rows ++
          [{ id := st.seq + 1, date := date, category := category,
             amount := (parseFloat amount).getD 0 }],
       seq := st.seq + 1 },
     AddResult.added
       { id := st.seq + 1, date := date, category := category,
         amount := (parseFloat amount).getD 0 })

/-- One `DELETE FROM expenses WHERE id = ?` statement. -/
def remove_id (rows : List Expense) (i : Nat) : List Expense :=
  rows.filter (fun e => decide (e.id ≠ i))

/-- `delete_expense` of expenses.py: with a non-empty selection, each
selected id is deleted; afterwards, if no rows remain, the
`sqlite_sequence` entry is deleted (resetting ids).  An empty selection is
a no-op. -/
def delete_expense (st : Store) (ids : List Nat) : Store :=
  if ids.isEmpty then st
  else if (ids.foldl remove_id st.rows).isEmpty then
    { rows := ids.foldl remove_id st.rows, seq := 0 }
  else
    { rows := ids.foldl remove_id st.rows, seq := st.seq }

/-- Rows that disappeared in `delete_expense st ids` — the observable
"count deleted" of the operation. -/
def deleted_count (st : Store) (ids : List Nat) : Nat :=
  st.rows.length - (delete_expense st ids).rows.length

/-- `delete_all_expenses` of expenses.py: `DELETE FROM expenses` followed
by deleting the `sqlite_sequence` entry. -/
def delete_all_expenses (_ : Store) : Store := { rows := [], seq := 0 }

/-- `SELECT * FROM expenses` as fetched by `view_expenses`. -/
def listAll (st : Store) : List Expense := st.rows

/-- Sum of the amount column of a row sequence (`view_expenses` total). -/
def totalAmount (rows : List Expense) : ℚ := (rows.map Expense.amount).sum

/-- `generate_report` of expenses.py:
`SELECT * FROM expenses WHERE date BETWEEN ? AND ?` — an inclusive filter
under SQLite's binary (lexicographic) text comparison. -/
def generate_report (st : Store) (start_date end_date : String) : List Expense :=
  st.rows.filter (fun e => strLeb start_date e.date && strLeb e.date end_date)

/-- The 7-character `YYYY-MM` prefix of a date string — the "month
prefix" the specification speaks about.  For zero-padded valid dates this
is exactly what `strftime(&quot;%Y-%m&quot;, date)` renders; for other strings it
is merely a character prefix, not the strftime result. -/
def monthPrefix (d : String) : String := String.mk (d.toList.take 7)

/-- A number below 100 as two zero-padded decimal digits. -/
def pad2 (n : Nat) : List Char := [Nat.digitChar (n / 10), Nat.digitChar (n % 10)]

/-- `strftime(&quot;%Y-%m&quot;, s)` on a bare date string, per SQLite date.c:
`getDigits(&quot;40f-21a-21d&quot;)` demands exactly four year digits, a dash,
exactly two month digits (01-12), a dash, and exactly two day digits
(01-31); anything else — in particular the unpadded dates that
`validate_date` lets through — yields NULL.  A day beyond the month's
length (never produced by `add_expense`, whose validation is
calendar-exact) is normalised into the following month by the Julian-day
conversion.  Time-of-day suffixes, Julian numbers and `now` cannot occur
among stored dates and are not modelled. -/
def strftime_YM (s : String) : Option String :=
  match splitDash s.toList with
  | [ys, ms, ds] =>
      if ys.all Char.isDigit && decide (ys.length = 4) &&
         ms.all Char.isDigit && decide (ms.length = 2) &&
         ds.all Char.isDigit && decide (ds.length = 2) &&
         decide (1 ≤ digitsVal ms) && decide (digitsVal ms ≤ 12) &&
         decide (1 ≤ digitsVal ds) && decide (digitsVal ds ≤ 31) then
        if daysInMonth (digitsVal ys) (digitsVal ms) < digitsVal ds then
          some (String.mk (ys ++ '-' :: pad2 (digitsVal ms + 1)))
        else
          some (String.mk (ys ++ '-' :: ms))
      else none
  | _ => none

/-- Sum of the amounts of the rows whose key equals `k` — the
`SUM(amount)` of one `GROUP BY` group. -/
def fiberSum {κ : Type} [DecidableEq κ] (key : Expense → κ) (rows : List Expense) (k : κ) : ℚ :=
  ((rows.filter (fun e => decide (key e = k))).map Expense.amount).sum

/-- The distinct keys present among `rows`, in ascending order under the
given comparison.  The SQLite `GROUP BY` leaves the group order
unspecified; following the specification's deliberate tightening, the
keys are returned sorted. -/
def sortedKeys {κ : Type} [DecidableEq κ] (leb : κ → κ → Bool) (key : Expense → κ)
    (rows : List Expense) : List κ :=
  List.insertionSort (fun a b => leb a b = true) ((rows.map key).dedup)

/-- `SELECT key, SUM(amount) FROM expenses GROUP BY key` with sorted
group keys. -/
def groupTotals {κ : Type} [DecidableEq κ] (leb : κ → κ → Bool) (key : Expense → κ)
    (rows : List Expense) : List (κ × ℚ) :=
  (sortedKeys leb key rows).map (fun k => (k, fiberSum key rows k))

/-- Order on the month keys: the NULL key (unparseable date) first, then
the lexicographic string order.  `GROUP BY` output order is unspecified in
SQLite; only the relative order of the non-NULL keys matters to the
claims. -/
def optStrLeb : Option String → Option String → Bool
  | none, _ => true
  | some _, none => false
  | some a, some b => strLeb a b

/-- The month grouping behind `generate_spending_chart`:
`SELECT strftime(&quot;%Y-%m&quot;, date) as month, SUM(amount) ... GROUP BY month`.
Rows whose stored date SQLite cannot parse fall into the NULL group. -/
def monthly_totals (st : Store) : List (Option String × ℚ) :=
  groupTotals optStrLeb (fun e => strftime_YM e.date) st.rows

/-- The category grouping behind `generate_category_pie_chart` and
`get_spending_insights`: `SELECT category, SUM(amount) ... GROUP BY category`. -/
def category_totals (st : Store) : List (String × ℚ) :=
  groupTotals strLeb Expense.category st.rows

/-- Characters of a string lowered, as pandas `case=False` matching does
for the ASCII labels involved. -/
def lowerChars (s : String) : List Char := s.toList.map Char.toLower

/-- Does the second list occur at the head of the first? -/
def startsWithL : List Char → List Char → Bool
  | _, [] => true
  | [], _ :: _ => false
  | c :: cs, p :: ps => c == p && startsWithL cs ps

/-- Does `pat` occur as a contiguous sublist of `s`? -/
def hasSub : List Char → List Char → Bool
  | [], pat => pat.isEmpty
  | c :: cs, pat => startsWithL (c :: cs) pat || hasSub cs pat

/-- Case-insensitive substring containment, the model of
`Series.str.contains(pat, case=False)` on the plain-text patterns used. -/
def containsCI (s pat : String) : Bool := hasSub (lowerChars s) (lowerChars pat)

/-- Message appended when the dining-out rule fires. -/
def diningMsg : String := "Consider reducing spending on dining out to save more."

/-- Message appended when the entertainment rule fires. -/
def entertainmentMsg : String := "Think about cutting down on entertainment expenses."

/-- Message returned when no rule fires. -/
def affirmMsg : String := "You\x27re doing great! Keep up the good work."

/-- `total_spent` of `get_spending_insights`: the sum of the grouped
amounts. -/
def total_spent (st : Store) : ℚ := ((category_totals st).map Prod.snd).sum

/-- `dining_spent`: combined amount of every grouped category whose name
contains the dining pattern, case-insensitively. -/
def dining_spent (st : Store) : ℚ :=
  (((category_totals st).filter (fun p => containsCI p.1 ("Dining Out"))).map Prod.snd).sum

/-- `entertainment_spent`: combined amount of every grouped category whose
name contains the entertainment pattern, case-insensitively. -/
def entertainment_spent (st : Store) : ℚ :=
  (((category_totals st).filter (fun p => containsCI p.1 ("Entertainment"))).map Prod.snd).sum

/-- `get_spending_insights` of expenses.py: the dining rule fires when the
combined dining amount exceeds 20% of total spending, then the
entertainment rule at 15%; if neither fired, the affirming message is
returned alone. -/
def get_spending_insights (st : Store) : List String :=
  let recs :=
    (if dining_spent st > total_spent st * (1 / 5) then [diningMsg] else []) ++
    (if entertainment_spent st > total_spent st * (3 / 20) then [entertainmentMsg] else [])
  if recs = [] then [affirmMsg] else recs

/-- Does a CSV field need quoting (delimiter, quote or line break inside)? -/
def needsQuote (s : String) : Bool :=
  s.toList.any (fun c => c == ',' || c == '"' || c == '\n' || c == '\r')

/-- Double every quote character, the csv-module escape. -/
def escQuotes (s : String) : String :=
  String.mk (s.toList.foldr (fun c acc => if c == '"' then '"' :: '"' :: acc else c :: acc) [])

/-- Render one CSV field with minimal quoting, as `csv.writer` does. -/
def csvField (s : String) : String :=
  if needsQuote s then "\"" ++ escQuotes s ++ "\"" else s

/-- Join rendered fields with commas into one CSV record. -/
def csvRow (fields : List String) : String :=
  joinWith (",") (fields.map csvField)

/-- Textual rendering of an amount.  The claims do not depend on the exact
digits Python prints for a float, only on field positions, so the rational
is rendered canonically. -/
def ratRepr (q : ℚ) : String :=
  if q.den = 1 then toString q.num else toString q.num ++ "/" ++ toString q.den

/-- The four fields of one exported row, in the table's native order. -/
def expenseFields (e : Expense) : List String :=
  [toString e.id, e.date, e.category, ratRepr e.amount]

/-- The full CSV output of `export_to_csv`: the header record followed by
one record per row of the given sequence, in order. -/
def csvLines (rows : List Expense) : List String :=
  csvRow [("ID"), ("Date"), ("Category"), ("Amount")] :: rows.map (fun e => csvRow (expenseFields e))

/-- The export destination, modelled as a line-granular sink: a buffered
file either cannot be opened at all, accepts everything, or fails after
committing a prefix of the records. -/
inductive Destination where
  | writable
  | unopenable
  | failsAfter (n : Nat)
deriving DecidableEq

/-- What `export_to_csv` tells the caller: the success status message or
the caught-and-reported exception (never re-raised). -/
inductive ExportStatus where
  | success
  | ioError
deriving DecidableEq

/-- `export_to_csv` of expenses.py against a destination: all records are
written inside one `try`; any exception is caught and reported, leaving
whatever prefix of the output had already been committed. -/
def export_to_csv (rows : List Expense) (d : Destination) : ExportStatus × List String :=
  match d with
  | Destination.unopenable => (ExportStatus.ioError, [])
  | Destination.writable => (ExportStatus.success, csvLines rows)
  | Destination.failsAfter n =>
      if (csvLines rows).length ≤ n then (ExportStatus.success, csvLines rows)
      else (ExportStatus.ioError, (csvLines rows).take n)

/-- Invariant of every database state reachable through the operations:
ids never exceed the sequence value, rows are in strictly increasing id
order, and an empty table has no sequence entry. -/
def StoreInv (st : Store) : Prop :=
  (∀ e ∈ st.rows, e.id ≤ st.seq) ∧
  st.rows.Pairwise (fun a b => a.id < b.id) ∧
  (st.rows = [] → st.seq = 0)

/-! ### The boolean lexicographic comparison agrees with the library order -/

/-- `lexLeb` decides the (negated, flipped) lexicographic list order. -/
theorem lexLeb_iff (x : List Char) :
    ∀ y : List Char, lexLeb x y = true ↔ ¬ List.Lex (fun a b => a < b) y x := by
  induction x with
  | nil =>
      intro y
      simp only [lexLeb, true_iff]
      exact List.Lex.not_nil_right _ _
  | cons a as ih =>
      intro y
      cases y with
      | nil =>
          simp only [lexLeb, Bool.false_eq_true, false_iff, not_not]
          exact List.Lex.nil
      | cons b bs =>
          by_cases h1 : a < b
          · simp only [lexLeb, if_pos h1, true_iff]
            intro hcon
            cases hcon with
            | cons h3 => exact absurd h1 (lt_irrefl _)
            | rel h2 => exact absurd h1 (lt_asymm h2)
          · by_cases h2 : b < a
            · simp only [lexLeb, if_neg h1, if_pos h2, Bool.false_eq_true, false_iff, not_not]
              exact List.Lex.rel h2
            · have hab : a = b := le_antisymm (not_lt.mp h2) (not_lt.mp h1)
              subst hab
              have hstep : lexLeb (a :: as) (a :: bs) = lexLeb as bs := by
                simp [lexLeb]
              rw [hstep, ih bs]
              constructor
              · intro hn hcon
                cases hcon with
                | cons h3 => exact hn h3
                | rel h4 => exact lt_irrefl _ h4
              · intro hn h3
                exact hn (List.Lex.cons h3)

/-- `strLeb` decides the string order used by Mathlib's linear order. -/
theorem strLeb_iff (a b : String) : strLeb a b = true ↔ a ≤ b := by
  rw [String.le_iff_toList_le, ← not_lt]
  exact lexLeb_iff a.toList b.toList

instance : IsTotal String (fun a b => strLeb a b = true) :=
  ⟨fun a b => by
    rcases le_total a b with h | h
    · exact Or.inl ((strLeb_iff a b).mpr h)
    · exact Or.inr ((strLeb_iff b a).mpr h)⟩

instance : IsTrans String (fun a b => strLeb a b = true) :=
  ⟨fun a b c h1 h2 =>
    (strLeb_iff a c).mpr (le_trans ((strLeb_iff a b).mp h1) ((strLeb_iff b c).mp h2))⟩

/-! ### Facts about the grouping pipeline -/

instance : IsTotal (Option String) (fun a b => optStrLeb a b = true) :=
  ⟨fun a b => by
    cases a with
    | none => exact Or.inl rfl
    | some x =>
        cases b with
        | none => exact Or.inr rfl
        | some y => exact IsTotal.total (r := fun a b => strLeb a b = true) x y⟩

instance : IsTrans (Option String) (fun a b => optStrLeb a b = true) :=
  ⟨fun a b c h1 h2 => by
    cases a with
    | none => rfl
    | some x =>
        cases b with
        | none => exact absurd h1 (by simp [optStrLeb])
        | some y =>
            cases c with
            | none => exact absurd h2 (by simp [optStrLeb])
            | some z =>
                exact Trans.trans (r := fun a b => strLeb a b = true)
                  (s := fun a b => strLeb a b = true) h1 h2⟩

/-- The sorted key list has no duplicates. -/
theorem sortedKeys_nodup {κ : Type} [DecidableEq κ] (leb : κ → κ → Bool)
    (key : Expense → κ) (rows : List Expense) : (sortedKeys leb key rows).Nodup :=
  ((List.perm_insertionSort _ _).nodup_iff).mpr (List.nodup_dedup _)

/-- Membership in the sorted key list is key-of-some-row. -/
theorem mem_sortedKeys {κ : Type} [DecidableEq κ] (leb : κ → κ → Bool)
    (key : Expense → κ) (rows : List Expense) (k : κ) :
    k ∈ sortedKeys leb key rows ↔ ∃ e ∈ rows, key e = k := by
  unfold sortedKeys
  rw [(List.perm_insertionSort _ _).mem_iff, List.mem_dedup, List.mem_map]

/-- The sorted key list is sorted for its comparison. -/
theorem sortedKeys_sorted {κ : Type} [DecidableEq κ] (leb : κ → κ → Bool)
    [IsTotal κ (fun a b => leb a b = true)] [IsTrans κ (fun a b => leb a b = true)]
    (key : Expense → κ) (rows : List Expense) :
    (sortedKeys leb key rows).Sorted (fun a b => leb a b = true) :=
  List.sorted_insertionSort _ _

/-- Group sum over the empty row list. -/
theorem fiberSum_nil {κ : Type} [DecidableEq κ] (key : Expense → κ) (k : κ) :
    fiberSum key [] k = 0 := rfl

/-- Group sum over a cons: the head contributes iff its key matches. -/
theorem fiberSum_cons {κ : Type} [DecidableEq κ] (key : Expense → κ) (e : Expense)
    (rest : List Expense) (k : κ) :
    fiberSum key (e :: rest) k = (if key e = k then e.amount else 0) + fiberSum key rest k := by
  by_cases h : key e = k <;> simp [fiberSum, List.filter_cons, h]

/-- Sums of pointwise sums split. -/
theorem sum_map_add_q {κ : Type} (f g : κ → ℚ) (l : List κ) :
    (l.map (fun k => f k + g k)).sum = (l.map f).sum + (l.map g).sum := by
  induction l with
  | nil => simp
  | cons a t ih => simp only [List.map_cons, List.sum_cons, ih]; ring

/-- Summing a one-point indicator over a duplicate-free list containing the
point yields the value. -/
theorem sum_indicator_q {κ : Type} [DecidableEq κ] (v : ℚ) (x : κ) (ks : List κ)
    (hnd : ks.Nodup) (hx : x ∈ ks) :
    (ks.map (fun k => if x = k then v else 0)).sum = v := by
  induction ks with
  | nil => cases hx
  | cons k t ih =>
      rcases List.mem_cons.mp hx with h | h
      · subst h
        simp only [List.map_cons, List.sum_cons]
        have hz : ∀ y ∈ t.map (fun k => if x = k then v else 0), y = 0 := by
          intro y hy
          rcases List.mem_map.mp hy with ⟨k1, hk1, rfl⟩
          have hne : x ≠ k1 := by
            intro hh
            exact (List.nodup_cons.mp hnd).1 (hh ▸ hk1)
          simp [hne]
        rw [if_pos trivial, List.sum_eq_zero hz, add_zero]
      · have hxk : x ≠ k := by
          intro hh
          subst hh
          exact (List.nodup_cons.mp hnd).1 h
        simp only [List.map_cons, List.sum_cons, if_neg hxk]
        rw [ih (List.nodup_cons.mp hnd).2 h, zero_add]

/-- Partition identity: summing the group sums over any duplicate-free key
list covering the rows gives the total of the rows. -/
theorem sum_fiber {κ : Type} [DecidableEq κ] (key : Expense → κ) (rows : List Expense) :
    ∀ ks : List κ, ks.Nodup → (∀ e ∈ rows, key e ∈ ks) →
      (ks.map (fun k => fiberSum key rows k)).sum = totalAmount rows := by
  induction rows with
  | nil =>
      intro ks _ _
      have hz : ∀ y ∈ ks.map (fun k => fiberSum key ([] : List Expense) k), y = 0 := by
        intro y hy
        rcases List.mem_map.mp hy with ⟨k, _, rfl⟩
        rfl
      simp [totalAmount, List.sum_eq_zero hz]
  | cons e rest ih =>
      intro ks hnd hcov
      have h1 : (ks.map fun k => fiberSum key (e :: rest) k).sum
          = (ks.map fun k => (if key e = k then e.amount else 0) + fiberSum key rest k).sum := by
        simp only [fiberSum_cons]
      rw [h1, sum_map_add_q,
        sum_indicator_q e.amount (key e) ks hnd (hcov e (List.mem_cons_self e rest)),
        ih ks hnd (fun x hx => hcov x (List.mem_cons_of_mem e hx))]
      simp [totalAmount]

/-- The group totals sum to the row total, whatever the key function —
rows with an unparseable date land in the NULL group and are counted
there, so the identity holds of the program unconditionally. -/
theorem sum_groupTotals {κ : Type} [DecidableEq κ] (leb : κ → κ → Bool)
    (key : Expense → κ) (rows : List Expense) :
    ((groupTotals leb key rows).map Prod.snd).sum = totalAmount rows := by
  unfold groupTotals
  rw [List.map_map]
  exact sum_fiber key rows _ (sortedKeys_nodup leb key rows)
    (fun e he => (mem_sortedKeys leb key rows (key e)).mpr ⟨e, he, rfl⟩)

/-! ### Reassembling a split string and the strftime bridge -/

/-- Rejoin the dash-separated pieces. -/
def joinParts : List (List Char) → List Char
  | [] => []
  | [p] => p
  | p :: q :: r => p ++ '-' :: joinParts (q :: r)

/-- `splitDash` never returns the empty list of pieces. -/
theorem splitDash_ne_nil (l : List Char) : splitDash l ≠ [] := by
  induction l with
  | nil => simp [splitDash]
  | cons c cs ih =>
      show splitDash (c :: cs) ≠ []
      unfold splitDash at ih ⊢
      rw [List.foldr_cons]
      by_cases hc : c = '-'
      · simp [hc]
      · rw [if_neg hc]
        cases hs : List.foldr _ [[]] cs with
        | nil => exact absurd hs ih
        | cons t ts => simp

/-- Rejoining the split pieces recovers the original characters. -/
theorem joinParts_splitDash (l : List Char) : joinParts (splitDash l) = l := by
  induction l with
  | nil => rfl
  | cons c cs ih =>
      show joinParts (splitDash (c :: cs)) = c :: cs
      have hstep : splitDash (c :: cs) =
          if c = '-' then [] :: splitDash cs
          else match splitDash cs with
            | t :: ts => (c :: t) :: ts
            | [] => [[c]] := rfl
      by_cases hc : c = '-'
      · rw [hstep, if_pos hc]
        cases hs : splitDash cs with
        | nil => exact absurd hs (splitDash_ne_nil cs)
        | cons t ts =>
            show [] ++ '-' :: joinParts (t :: ts) = c :: cs
            rw [hc, List.nil_append, ← hs, ih]
      · rw [hstep, if_neg hc]
        cases hs : splitDash cs with
        | nil => exact absurd hs (splitDash_ne_nil cs)
        | cons t ts =>
            cases ts with
            | nil =>
                show c :: t = c :: cs
                rw [← ih, hs]
                rfl
            | cons q r =>
                show (c :: t) ++ '-' :: joinParts (q :: r) = c :: cs
                rw [← ih, hs]
                rfl

/-- Evaluation of strftime on a string that splits into three pieces. -/
theorem strftime_YM_eval (s : String) (ys ms ds : List Char)
    (hs : splitDash s.toList = [ys, ms, ds]) :
    strftime_YM s =
      (if ys.all Char.isDigit && decide (ys.length = 4) &&
          ms.all Char.isDigit && decide (ms.length = 2) &&
          ds.all Char.isDigit && decide (ds.length = 2) &&
          decide (1 ≤ digitsVal ms) && decide (digitsVal ms ≤ 12) &&
          decide (1 ≤ digitsVal ds) && decide (digitsVal ds ≤ 31) then
        if daysInMonth (digitsVal ys) (digitsVal ms) < digitsVal ds then
          some (String.mk (ys ++ '-' :: pad2 (digitsVal ms + 1)))
        else
          some (String.mk (ys ++ '-' :: ms))
      else none) := by
  unfold strftime_YM
  rw [hs]

/-- On a zero-padded valid calendar date, strftime succeeds and renders
exactly the 7-character month prefix. -/
theorem strftime_of_specValid {d : String} (h : specValidDate d = true) :
    strftime_YM d = some (monthPrefix d) := by
  unfold specValidDate at h
  cases hs : splitDash d.toList with
  | nil => rw [hs] at h; cases h
  | cons ys rest =>
      cases rest with
      | nil => rw [hs] at h; cases h
      | cons ms rest2 =>
          cases rest2 with
          | nil => rw [hs] at h; cases h
          | cons ds rest3 =>
              cases rest3 with
              | cons x xs => rw [hs] at h; cases h
              | nil =>
                  rw [hs] at h
                  simp only [Bool.and_eq_true, decide_eq_true_eq] at h
                  obtain ⟨⟨⟨⟨⟨⟨⟨⟨⟨⟨hyd, hy4⟩, hmd⟩, hm2⟩, hdd⟩, hd2⟩, _hy1⟩, hm1⟩, hm12⟩,
                    hd1⟩, hdmax⟩ := h
                  rcases ys with _ | ⟨y1, ys⟩
                  · simp at hy4
                  rcases ys with _ | ⟨y2, ys⟩
                  · simp at hy4
                  rcases ys with _ | ⟨y3, ys⟩
                  · simp at hy4
                  rcases ys with _ | ⟨y4, ys⟩
                  · simp at hy4
                  have hys0 : ys = [] := by
                    have h0 : ys.length = 0 := by
                      simp only [List.length_cons] at hy4
                      omega
                    exact List.length_eq_zero.mp h0
                  subst hys0
                  rcases ms with _ | ⟨m1, ms⟩
                  · simp at hm2
                  rcases ms with _ | ⟨m2, ms⟩
                  · simp at hm2
                  have hms0 : ms = [] := by
                    have h0 : ms.length = 0 := by
                      simp only [List.length_cons] at hm2
                      omega
                    exact List.length_eq_zero.mp h0
                  subst hms0
                  have hd31 : digitsVal ds ≤ 31 := by
                    refine le_trans hdmax ?_
                    unfold daysInMonth
                    split_ifs <;> omega
                  rw [strftime_YM_eval d [y1, y2, y3, y4] [m1, m2] ds hs]
                  rw [if_pos (by
                    simp only [Bool.and_eq_true, decide_eq_true_eq]
                    exact ⟨⟨⟨⟨⟨⟨⟨⟨⟨hyd, hy4⟩, hmd⟩, hm2⟩, hdd⟩, hd2⟩, hm1⟩, hm12⟩, hd1⟩, hd31⟩)]
                  rw [if_neg (not_lt.mpr hdmax)]
                  have hjoin : d.toList = [y1, y2, y3, y4] ++ '-' :: ([m1, m2] ++ '-' :: ds) := by
                    have hj := joinParts_splitDash d.toList
                    rw [hs] at hj
                    exact hj.symm
                  unfold monthPrefix
                  rw [hjoin]
                  rfl

/-- A list of options all of which are `some` is the `some`-image of the
list of their contents. -/
theorem eq_map_some_of_all_some {L : List (Option String)}
    (h : ∀ x ∈ L, ∃ y, x = some y) : L = (L.filterMap id).map some := by
  induction L with
  | nil => rfl
  | cons a t ih =>
      obtain ⟨y, hy⟩ := h a (List.mem_cons_self a t)
      subst hy
      have ht := ih (fun x hx => h x (List.mem_cons_of_mem _ hx))
      simp only [List.filterMap_cons, id, List.map_cons]
      exact congrArg (List.cons (some y)) ht

/-! ### Characterizing the delete operation -/

/-- Folding single-id deletions equals one filter over the id set. -/
theorem foldl_remove_id (ids : List Nat) :
    ∀ rows : List Expense,
      ids.foldl remove_id rows = rows.filter (fun e => decide (e.id ∉ ids)) := by
  induction ids with
  | nil =>
      intro rows
      simp [List.foldl_nil]
  | cons i is ih =>
      intro rows
      rw [List.foldl_cons, ih (remove_id rows i)]
      unfold remove_id
      rw [List.filter_filter]
      apply List.filter_congr
      intro e _
      by_cases h1 : e.id = i <;> by_cases h2 : e.id ∈ is <;> simp [h1, h2]

/-- The rows surviving `delete_expense` are exactly the rows whose id is
outside the selection, in their original order. -/
theorem delete_expense_rows (st : Store) (ids : List Nat) :
    (delete_expense st ids).rows = st.rows.filter (fun e => decide (e.id ∉ ids)) := by
  unfold delete_expense
  by_cases h : ids.isEmpty
  · rw [if_pos h]
    have he : ids = [] := List.isEmpty_iff.mp h
    subst he
    simp
  · rw [if_neg h]
    by_cases h2 : (ids.foldl remove_id st.rows).isEmpty
    · rw [if_pos h2]
      exact foldl_remove_id ids st.rows
    · rw [if_neg h2]
      exact foldl_remove_id ids st.rows

/-- Filtering a list by a predicate and its negation splits its length. -/
theorem length_filter_split (p : Expense → Bool) (l : List Expense) :
    (l.filter p).length + (l.filter (fun a => !(p a))).length = l.length := by
  induction l with
  | nil => rfl
  | cons e t ih =>
      by_cases h : p e <;> simp [List.filter_cons, h, ← ih] <;> omega

/-- The observable deletion count is the number of stored rows whose id is
in the selection. -/
theorem deleted_count_eq (st : Store) (ids : List Nat) :
    deleted_count st ids = (st.rows.filter (fun e => decide (e.id ∈ ids))).length := by
  unfold deleted_count
  rw [delete_expense_rows]
  have hcong : st.rows.filter (fun e => decide (e.id ∉ ids))
      = st.rows.filter (fun e => !(decide (e.id ∈ ids))) := by
    apply List.filter_congr
    intro e _
    by_cases h : e.id ∈ ids <;> simp [h]
  rw [hcong]
  have hsplit := length_filter_split (fun e => decide (e.id ∈ ids)) st.rows
  omega

/-! ### Characterizing the add operation -/

/-- A true `validate_amount` means the amount parses to a positive value. -/
theorem validate_amount_spec {a : String} (h : validate_amount a = true) :
    ∃ q : ℚ, parseFloat a = some q ∧ 0 < q ∧ (parseFloat a).getD 0 = q := by
  unfold validate_amount at h
  cases hp : parseFloat a with
  | none => rw [hp] at h; cases h
  | some q =>
      rw [hp] at h
      exact ⟨q, rfl, of_decide_eq_true h, by simp⟩

/-- Inversion of a successful `add_expense`. -/
theorem add_expense_added {st st1 : Store} {d c a : String} {e : Expense}
    (h : add_expense st d c a = (st1, AddResult.added e)) :
    validate_date d = true ∧ c ≠ "" ∧ validate_amount a = true ∧
    e = { id := st.seq + 1, date := d, category := c, amount := (parseFloat a).getD 0 } ∧
    st1 = { rows := st.rows ++ [e], seq := st.seq + 1 } := by
  unfold add_expense at h
  split_ifs at h with h1 h2 h3
  · simp at h
  · simp at h
  · simp at h
  · have hd : validate_date d = true := by
      revert h1
      cases validate_date d <;> simp
    have ha : validate_amount a = true := by
      revert h3
      cases validate_amount a <;> simp
    rw [Prod.mk.injEq] at h
    have he : e = { id := st.seq + 1, date := d, category := c, amount := (parseFloat a).getD 0 } := by
      have hsnd := h.2
      cases hsnd
      rfl
    refine ⟨hd, h2, ha, he, ?_⟩
    rw [← h.1, he]

/-- Inversion of a failed `add_expense`: the store is untouched. -/
theorem add_expense_failed {st : Store} {d c a : String}
    (h : ¬ (validate_date d = true ∧ c ≠ "" ∧ validate_amount a = true)) :
    (add_expense st d c a).1 = st := by
  unfold add_expense
  split_ifs with h1 h2 h3
  · rfl
  · rfl
  · rfl
  · exfalso
    apply h
    refine ⟨?_, h2, ?_⟩
    · revert h1; cases validate_date d <;> simp
    · revert h3; cases validate_amount a <;> simp

/-- When a delete leaves the table empty, the sequence entry is gone
(provided an already-empty table had none, as the invariant guarantees). -/
theorem delete_expense_seq_empty (st : Store) (ids : List Nat)
    (hz : st.rows = [] → st.seq = 0)
    (h : (delete_expense st ids).rows = []) : (delete_expense st ids).seq = 0 := by
  unfold delete_expense at h ⊢
  split_ifs at h ⊢ with h1 h2
  · exact hz h
  · rfl
  · exfalso
    apply h2
    rw [List.isEmpty_iff]
    exact h

/-- When rows survive a delete, the sequence value is untouched. -/
theorem delete_expense_seq_nonempty (st : Store) (ids : List Nat)
    (h : (delete_expense st ids).rows ≠ []) : (delete_expense st ids).seq = st.seq := by
  unfold delete_expense at h ⊢
  split_ifs at h ⊢ with h1 h2
  · rfl
  · exact absurd (List.isEmpty_iff.mp h2) h
  · rfl

/-! ### The invariant is preserved by every operation -/

/-- The fresh database satisfies the invariant. -/
theorem storeInv_initial : StoreInv initialStore :=
  ⟨fun e he => absurd he (List.not_mem_nil e), List.Pairwise.nil, fun _ => rfl⟩

/-- `add_expense` preserves the invariant. -/
theorem storeInv_add (st : Store) (h : StoreInv st) (d c a : String) :
    StoreInv (add_expense st d c a).1 := by
  obtain ⟨hb, hp, hz⟩ := h
  unfold add_expense
  split_ifs
  · exact ⟨hb, hp, hz⟩
  · exact ⟨hb, hp, hz⟩
  · exact ⟨hb, hp, hz⟩
  · refine ⟨?_, ?_, ?_⟩
    · intro x hx
      rcases List.mem_append.mp hx with hx | hx
      · exact le_trans (hb x hx) (Nat.le_succ _)
      · rw [List.mem_singleton.mp hx]
    · rw [List.pairwise_append]
      refine ⟨hp, List.pairwise_singleton _ _, ?_⟩
      intro x hx y hy
      rw [List.mem_singleton.mp hy]
      exact Nat.lt_succ_of_le (hb x hx)
    · intro hcon
      simp at hcon

/-- `delete_expense` preserves the invariant. -/
theorem storeInv_delete (st : Store) (h : StoreInv st) (ids : List Nat) :
    StoreInv (delete_expense st ids) := by
  obtain ⟨hb, hp, hz⟩ := h
  unfold delete_expense
  split_ifs with h1 h2
  · exact ⟨hb, hp, hz⟩
  · have he : ids.foldl remove_id st.rows = [] := List.isEmpty_iff.mp h2
    refine ⟨?_, ?_, ?_⟩
    · intro x hx
      have hx2 : x ∈ ids.foldl remove_id st.rows := hx
      rw [he] at hx2
      cases hx2
    · show List.Pairwise _ (ids.foldl remove_id st.rows)
      rw [he]
      exact List.Pairwise.nil
    · intro _
      rfl
  · have hfil := foldl_remove_id ids st.rows
    refine ⟨?_, ?_, ?_⟩
    · intro x hx
      have hx2 : x ∈ ids.foldl remove_id st.rows := hx
      rw [hfil] at hx2
      exact hb x (List.mem_of_mem_filter hx2)
    · show List.Pairwise _ (ids.foldl remove_id st.rows)
      rw [hfil]
      exact hp.sublist (List.filter_sublist _)
    · intro hcon
      exfalso
      apply h2
      rw [List.isEmpty_iff]
      exact hcon

/-- `delete_all_expenses` establishes the invariant outright. -/
theorem storeInv_delete_all (st : Store) : StoreInv (delete_all_expenses st) :=
  ⟨fun e he => absurd he (List.not_mem_nil e), List.Pairwise.nil, fun _ => rfl⟩

/-! ### Concrete stores used by witnesses and counterexamples -/

/-- The worked example of the specification: two food rows and a dining
row across two months. -/
def demoStore : Store :=
  { rows := [{ id := 1, date := "2024-01-05", category := "Food", amount := 50 },
             { id := 2, date := "2024-01-20", category := "Dining Out", amount := 40 },
             { id := 3, date := "2024-02-01", category := "Food", amount := 10 }],
    seq := 3 }

/-- C3: for every id set, `delete_expense` keeps exactly the rows whose id
is outside the set (in order), the observable count deleted is the number
of rows whose id is in the set, and a selection of absent ids leaves the
state unchanged with count zero — no exception is possible (the operation
is total). -/
theorem C3_delete_exact (st : Store) (ids : List Nat) (hinv : StoreInv st) :
    (delete_expense st ids).rows = st.rows.filter (fun e => decide (e.id ∉ ids)) ∧
    deleted_count st ids = (st.rows.filter (fun e => decide (e.id ∈ ids))).length ∧
    ((∀ e ∈ st.rows, e.id ∉ ids) → delete_expense st ids = st ∧ deleted_count st ids = 0) := by
  refine ⟨delete_expense_rows st ids, deleted_count_eq st ids, ?_⟩
  intro hnone
  have hfil : st.rows.filter (fun e => decide (e.id ∉ ids)) = st.rows := by
    rw [List.filter_eq_self]
    intro e he
    exact decide_eq_true (hnone e he)
  have hrows : (delete_expense st ids).rows = st.rows := by
    rw [delete_expense_rows st ids, hfil]
  have hseq : (delete_expense st ids).seq = st.seq := by
    by_cases hemp : st.rows = []
    · have h1 : (delete_expense st ids).rows = [] := by rw [hrows, hemp]
      rw [delete_expense_seq_empty st ids hinv.2.2 h1, hinv.2.2 hemp]
    · exact delete_expense_seq_nonempty st ids (by rw [hrows]; exact hemp)
  constructor
  · calc delete_expense st ids
        = { rows := (delete_expense st ids).rows, seq := (delete_expense st ids).seq } := rfl
      _ = { rows := st.rows, seq := st.seq } := by rw [hrows, hseq]
      _ = st := rfl
  · unfold deleted_count
    rw [hrows]
    omega

/-- Witness for C3: deleting ids 2 and 5 from the demo store removes
exactly the rows with a selected id. -/
theorem C3_delete_exact_witness :
    deleted_count demoStore [2, 5] =
      (demoStore.rows.filter (fun e => decide (e.id ∈ ([2, 5] : List Nat)))).length :=
  (C3_delete_exact demoStore [2, 5] (by unfold StoreInv; decide)).2.1

/-- C2: a delete that leaves the table empty resets the sequence, so the
next successful add gets id 1; `delete_all_expenses` does so
unconditionally; and while rows remain the sequence is untouched, the
surviving rows stay in strictly increasing id order, and the next add
receives an id above every stored one. -/
theorem C2_id_reset (st : Store) (hinv : StoreInv st) :
    (∀ ids : List Nat, (delete_expense st ids).rows = [] →
      (delete_expense st ids).seq = 0 ∧
      (∀ d c a st1 e, add_expense (delete_expense st ids) d c a = (st1, AddResult.added e) →
        e.id = 1)) ∧
    ((delete_all_expenses st).rows = [] ∧ (delete_all_expenses st).seq = 0 ∧
      (∀ d c a st1 e, add_expense (delete_all_expenses st) d c a = (st1, AddResult.added e) →
        e.id = 1)) ∧
    (∀ ids : List Nat, (delete_expense st ids).rows ≠ [] →
      (delete_expense st ids).seq = st.seq ∧
      (delete_expense st ids).rows.Pairwise (fun x y => x.id < y.id) ∧
      (∀ d c a st1 e, add_expense (delete_expense st ids) d c a = (st1, AddResult.added e) →
        ∀ x ∈ (delete_expense st ids).rows, x.id < e.id)) := by
  refine ⟨?_, ?_, ?_⟩
  · intro ids hempty
    have hseq := delete_expense_seq_empty st ids hinv.2.2 hempty
    refine ⟨hseq, ?_⟩
    intro d c a st1 e hadd
    have he := (add_expense_added hadd).2.2.2.1
    rw [he]
    show (delete_expense st ids).seq + 1 = 1
    rw [hseq]
  · refine ⟨rfl, rfl, ?_⟩
    intro d c a st1 e hadd
    have he := (add_expense_added hadd).2.2.2.1
    rw [he]
    rfl
  · intro ids hne
    refine ⟨delete_expense_seq_nonempty st ids hne, (storeInv_delete st hinv ids).2.1, ?_⟩
    intro d c a st1 e hadd x hx
    have he := (add_expense_added hadd).2.2.2.1
    rw [he]
    show x.id < (delete_expense st ids).seq + 1
    exact Nat.lt_succ_of_le ((storeInv_delete st hinv ids).1 x hx)

/-- Witness for C2 at the demo store. -/
theorem C2_id_reset_witness : (delete_all_expenses demoStore).seq = 0 :=
  (C2_id_reset demoStore (by unfold StoreInv; decide)).2.1.2.1

/-- Counterexample for C1 as stated: the date `2024-1-5` is not a
zero-padded `YYYY-MM-DD` calendar date, yet `add_expense` accepts it and
persists the row — `strptime` treats the leading zeros of `%m`/`%d` as
optional. -/
theorem C1_counterexample :
    specValidDate ("2024-1-5") = false ∧
    add_expense initialStore ("2024-1-5") ("Food") ("10") =
      ({ rows := [{ id := 1, date := "2024-1-5", category := "Food", amount := 10 }], seq := 1 },
       AddResult.added { id := 1, date := "2024-1-5", category := "Food", amount := 10 }) := by
  constructor
  · decide
  · decide

/-- C1 (amended): `add_expense` persists and returns a row exactly when
the date passes the code's `%Y-%m-%d` parse (leading zeros of month and
day optional), the category is non-empty and the amount parses to a
positive number; each failure is reported as the first failing field and,
on any failure, the store is unchanged. -/
theorem C1_add_validation (st : Store) (d c a : String) :
    ((∃ e, (add_expense st d c a).2 = AddResult.added e) ↔
      (validate_date d = true ∧ c ≠ "" ∧ validate_amount a = true)) ∧
    ((add_expense st d c a).2 = AddResult.invalidDate ↔ validate_date d = false) ∧
    ((add_expense st d c a).2 = AddResult.emptyCategory ↔
      (validate_date d = true ∧ c = "")) ∧
    ((add_expense st d c a).2 = AddResult.invalidAmount ↔
      (validate_date d = true ∧ c ≠ "" ∧ validate_amount a = false)) ∧
    (∀ e, (add_expense st d c a).2 = AddResult.added e →
      (add_expense st d c a).1.rows = st.rows ++ [e] ∧ e.id = st.seq + 1 ∧
      e.date = d ∧ e.category = c ∧ parseFloat a = some e.amount ∧ 0 < e.amount) ∧
    (¬ (validate_date d = true ∧ c ≠ "" ∧ validate_amount a = true) →
      (add_expense st d c a).1 = st) := by
  refine ⟨?_, ?_, ?_, ?_, ?_, add_expense_failed⟩
  · constructor
    · rintro ⟨e, he⟩
      have hpair : add_expense st d c a = ((add_expense st d c a).1, (add_expense st d c a).2) := rfl
      rw [he] at hpair
      obtain ⟨hd, hc, ha, _, _⟩ := add_expense_added hpair
      exact ⟨hd, hc, ha⟩
    · rintro ⟨h1, h2, h3⟩
      refine ⟨{ id := st.seq + 1, date := d, category := c, amount := (parseFloat a).getD 0 }, ?_⟩
      unfold add_expense
      rw [if_neg (by simp [h1]), if_neg h2, if_neg (by simp [h3])]
  · constructor
    · intro h
      unfold add_expense at h
      split_ifs at h with h1
      exact h1
    · intro h1
      unfold add_expense
      rw [if_pos h1]
  · constructor
    · intro h
      unfold add_expense at h
      split_ifs at h with h1 h2
      refine ⟨?_, h2⟩
      revert h1
      cases validate_date d <;> simp
    · rintro ⟨h1, h2⟩
      unfold add_expense
      rw [if_neg (by simp [h1]), if_pos h2]
  · constructor
    · intro h
      unfold add_expense at h
      split_ifs at h with h1 h2 h3
      refine ⟨?_, h2, h3⟩
      revert h1
      cases validate_date d <;> simp
    · rintro ⟨h1, h2, h3⟩
      unfold add_expense
      rw [if_neg (by simp [h1]), if_neg h2, if_pos h3]
  · intro e he
    have hpair : add_expense st d c a = ((add_expense st d c a).1, (add_expense st d c a).2) := rfl
    rw [he] at hpair
    obtain ⟨hd, hc, ha, heq, hst⟩ := add_expense_added hpair
    obtain ⟨q, hq, hqpos, hgd⟩ := validate_amount_spec ha
    refine ⟨?_, ?_, ?_, ?_, ?_, ?_⟩
    · rw [hst]
    · rw [heq]
    · rw [heq]
    · rw [heq]
    · rw [hq, heq]
      show some q = some ((parseFloat a).getD 0)
      rw [hgd]
    · rw [heq]
      show 0 < (parseFloat a).getD 0
      rw [hgd]
      exact hqpos

/-- Witness for C1 (amended): a fully valid triple is accepted. -/
theorem C1_add_validation_witness :
    ∃ e, (add_expense initialStore ("2024-01-05") ("Food") ("10")).2 = AddResult.added e :=
  (C1_add_validation initialStore ("2024-01-05") ("Food") ("10")).1.mpr
    ⟨by decide, by decide, by decide⟩

/-- C7: the report query returns exactly the stored rows whose date lies
inclusively between the two bounds under lexicographic string comparison. -/
theorem C7_list_between (st : Store) (d1 d2 : String) (_h : d1 ≤ d2) :
    ∀ e : Expense, e ∈ generate_report st d1 d2 ↔
      e ∈ listAll st ∧ d1 ≤ e.date ∧ e.date ≤ d2 := by
  intro e
  unfold generate_report listAll
  rw [List.mem_filter]
  constructor
  · rintro ⟨hm, hb⟩
    rw [Bool.and_eq_true] at hb
    exact ⟨hm, (strLeb_iff _ _).mp hb.1, (strLeb_iff _ _).mp hb.2⟩
  · rintro ⟨hm, hb1, hb2⟩
    refine ⟨hm, ?_⟩
    rw [Bool.and_eq_true]
    exact ⟨(strLeb_iff _ _).mpr hb1, (strLeb_iff _ _).mpr hb2⟩

/-- Witness for C7: a January window over the demo store contains the
first food row. -/
theorem C7_list_between_witness :
    ({ id := 1, date := "2024-01-05", category := "Food", amount := 50 } : Expense) ∈
      generate_report demoStore ("2024-01-01") ("2024-01-31") :=
  ((C7_list_between demoStore ("2024-01-01") ("2024-01-31")
      ((strLeb_iff _ _).mp (by decide))) _).mpr
    ⟨by decide, (strLeb_iff _ _).mp (by decide), (strLeb_iff _ _).mp (by decide)⟩

/-- A reachable store holding two unpadded dates with different
year-month prefixes: `strptime` accepts both (so `add_expense` persists
them, compare `C1_counterexample`), while SQLite's strftime parses
neither. -/
def c5Store : Store :=
  { rows := [{ id := 1, date := "2024-1-5", category := "Food", amount := 10 },
             { id := 2, date := "2023-2-6", category := "Food", amount := 20 }],
    seq := 2 }

/-- The month keys of the unpadded-date store: a single NULL group. -/
theorem c5_keys :
    sortedKeys optStrLeb (fun e => strftime_YM e.date) c5Store.rows = [none] := by decide

/-- The NULL group collects both rows' amounts. -/
theorem c5_fiber :
    fiberSum (fun e => strftime_YM e.date) c5Store.rows none = 30 := by
  simp +decide [fiberSum, c5Store]
  norm_num

/-- The month grouping of the unpadded-date store. -/
theorem c5_monthly : monthly_totals c5Store = [((none : Option String), 30)] := by
  unfold monthly_totals groupTotals
  rw [c5_keys]
  simp only [List.map_cons, List.map_nil]
  rw [c5_fiber]

/-- Counterexample for C5 as stated: both dates pass `validate_date` and
so are persisted by `add_expense`, their `YYYY-MM` prefixes differ, yet
the program's month grouping merges the two rows into a single NULL-keyed
group — the group key is no row's month prefix, and rows of different
months are not kept apart. -/
theorem C5_counterexample :
    validate_date ("2024-1-5") = true ∧ validate_date ("2023-2-6") = true ∧
    monthPrefix ("2024-1-5") ≠ monthPrefix ("2023-2-6") ∧
    monthly_totals c5Store = [((none : Option String), 30)] ∧
    ¬ (∀ p ∈ monthly_totals c5Store, ∃ e ∈ listAll c5Store, p.1 = some (monthPrefix e.date)) := by
  refine ⟨by decide, by decide, by decide, c5_monthly, ?_⟩
  intro hall
  have hpmem : ((none : Option String), (30 : ℚ)) ∈ monthly_totals c5Store := by
    rw [c5_monthly]
    exact List.mem_singleton.mpr rfl
  obtain ⟨e, _, heq⟩ := hall _ hpmem
  exact Option.noConfusion heq

/-- C5 (amended): on stores whose dates are zero-padded valid calendar
dates — the only date strings SQLite's strftime parses; `add_expense`
also accepts unpadded dates, which fall into a NULL group instead — the
month grouping is exactly by `YYYY-MM` prefix: the keys are the distinct
month prefixes present, in ascending order, every key is the prefix of
some stored row, every stored row's prefix appears, and each group sums
its rows' amounts. -/
theorem C5_monthly_totals (st : Store)
    (hwf : ∀ e ∈ st.rows, specValidDate e.date = true) :
    ∃ ks : List String,
      (monthly_totals st).map Prod.fst = ks.map some ∧
      ks.Sorted (fun a b : String => a < b) ∧
      (∀ k ∈ ks, ∃ e ∈ listAll st, monthPrefix e.date = k) ∧
      (∀ e ∈ listAll st, monthPrefix e.date ∈ ks) ∧
      (∀ p ∈ monthly_totals st,
        p.2 = fiberSum (fun e => strftime_YM e.date) (listAll st) p.1) := by
  have hkey : ∀ e ∈ st.rows, strftime_YM e.date = some (monthPrefix e.date) :=
    fun e he => strftime_of_specValid (hwf e he)
  have hL : (monthly_totals st).map Prod.fst
      = sortedKeys optStrLeb (fun e => strftime_YM e.date) st.rows := by
    unfold monthly_totals groupTotals
    rw [List.map_map]
    have hc : (Prod.fst ∘ fun k =>
        (k, fiberSum (fun e => strftime_YM e.date) st.rows k)) = id := rfl
    rw [hc, List.map_id]
  have hall : ∀ x ∈ sortedKeys optStrLeb (fun e => strftime_YM e.date) st.rows,
      ∃ y, x = some y := by
    intro x hx
    obtain ⟨e, he, hex⟩ := (mem_sortedKeys _ _ _ _).mp hx
    exact ⟨monthPrefix e.date, by rw [← hex, hkey e he]⟩
  have hmap := eq_map_some_of_all_some hall
  refine ⟨(sortedKeys optStrLeb (fun e => strftime_YM e.date) st.rows).filterMap id,
    by rw [hL]; exact hmap, ?_, ?_, ?_, ?_⟩
  · have hsor := sortedKeys_sorted optStrLeb (fun e => strftime_YM e.date) st.rows
    have hnd := sortedKeys_nodup optStrLeb (fun e => strftime_YM e.date) st.rows
    rw [hmap] at hsor hnd
    have hle : ((sortedKeys optStrLeb (fun e => strftime_YM e.date) st.rows).filterMap
        id).Sorted (fun a b : String => a ≤ b) := by
      have hp := (List.pairwise_map).mp hsor
      exact hp.imp (fun hab => (strLeb_iff _ _).mp hab)
    exact List.Sorted.lt_of_le hle (List.Nodup.of_map some hnd)
  · intro k hk
    have hmem : some k ∈ sortedKeys optStrLeb (fun e => strftime_YM e.date) st.rows := by
      rw [hmap]
      exact List.mem_map_of_mem some hk
    obtain ⟨e, he, hex⟩ := (mem_sortedKeys _ _ _ _).mp hmem
    refine ⟨e, he, ?_⟩
    have := (hkey e he).symm.trans hex
    exact Option.some.inj this
  · intro e he
    have hmem : strftime_YM e.date ∈
        sortedKeys optStrLeb (fun e => strftime_YM e.date) st.rows :=
      (mem_sortedKeys _ _ _ _).mpr ⟨e, he, rfl⟩
    rw [hkey e he, hmap] at hmem
    obtain ⟨y, hy, hyy⟩ := List.mem_map.mp hmem
    rw [← Option.some.inj hyy]
    exact hy
  · intro p hp
    unfold monthly_totals groupTotals at hp
    rcases List.mem_map.mp hp with ⟨k, hk, rfl⟩
    rfl

/-- Witness for C5 (amended) at the demo store, whose dates are all
zero-padded valid. -/
theorem C5_monthly_totals_witness :
    ∃ ks : List String,
      (monthly_totals demoStore).map Prod.fst = ks.map some ∧
      ks.Sorted (fun a b : String => a < b) ∧
      (∀ k ∈ ks, ∃ e ∈ listAll demoStore, monthPrefix e.date = k) ∧
      (∀ e ∈ listAll demoStore, monthPrefix e.date ∈ ks) ∧
      (∀ p ∈ monthly_totals demoStore,
        p.2 = fiberSum (fun e => strftime_YM e.date) (listAll demoStore) p.1) :=
  C5_monthly_totals demoStore (by decide)

/-- C8: both groupings conserve the total — the group sums of the monthly
and the category grouping each add up to the total of all stored rows —
and the total of an empty sequence is 0. -/
theorem C8_sum_consistency (st : Store) :
    ((monthly_totals st).map Prod.snd).sum = totalAmount (listAll st) ∧
    ((category_totals st).map Prod.snd).sum = totalAmount (listAll st) ∧
    totalAmount [] = 0 :=
  ⟨sum_groupTotals _ _ _, sum_groupTotals _ _ _, rfl⟩

/-- C10: the insight list is never empty, and the affirming message
appears exactly when neither ratio rule fires. -/
theorem C10_insights_nonempty (st : Store) :
    get_spending_insights st ≠ [] ∧
    (affirmMsg ∈ get_spending_insights st ↔
      ¬ (dining_spent st > total_spent st * (1 / 5)) ∧
      ¬ (entertainment_spent st > total_spent st * (3 / 20))) := by
  have hda : affirmMsg ≠ diningMsg := by decide
  have hea : affirmMsg ≠ entertainmentMsg := by decide
  simp only [get_spending_insights]
  by_cases h1 : dining_spent st > total_spent st * (1 / 5) <;>
    by_cases h2 : entertainment_spent st > total_spent st * (3 / 20)
  · rw [if_pos h1, if_pos h2, if_neg (by simp)]
    refine ⟨by simp, ?_⟩
    simp [hda, hea, h1, h2]
  · rw [if_pos h1, if_neg h2, if_neg (by simp)]
    refine ⟨by simp, ?_⟩
    simp [hda, h1]
    intro hc
    exact absurd (show dining_spent st ≤ total_spent st * (1 / 5) by simpa using hc)
      (not_le.mpr h1)
  · rw [if_neg h1, if_pos h2, if_neg (by simp)]
    refine ⟨by simp, ?_⟩
    simp [hea, h2]
  · rw [if_neg h1, if_neg h2, if_pos (by simp)]
    refine ⟨by simp, ?_⟩
    simp [h1, h2]
    simpa using le_of_not_lt h1

/-- Witness for C10 at the demo store. -/
theorem C10_insights_nonempty_witness : get_spending_insights demoStore ≠ [] :=
  (C10_insights_nonempty demoStore).1

/-- C9: with only positive stored amounts (the data-model invariant), a
zero total means an empty grouping, so no ratio rule can fire and the
affirming message is returned alone. -/
theorem C9_zero_total (st : Store) (hpos : ∀ e ∈ st.rows, 0 < e.amount)
    (h0 : total_spent st = 0) : get_spending_insights st = [affirmMsg] := by
  have hts : total_spent st = totalAmount st.rows :=
    sum_groupTotals strLeb Expense.category st.rows
  have hrows : st.rows = [] := by
    by_contra hne
    obtain ⟨e, t, het⟩ := List.exists_cons_of_ne_nil hne
    have h1 : 0 < e.amount := hpos e (by rw [het]; exact List.mem_cons_self e t)
    have h2 : 0 ≤ (t.map Expense.amount).sum := by
      apply List.sum_nonneg
      intro x hx
      rcases List.mem_map.mp hx with ⟨y, hy, rfl⟩
      exact le_of_lt (hpos y (by rw [het]; exact List.mem_cons_of_mem e hy))
    have h3 : 0 < totalAmount st.rows := by
      rw [het]
      unfold totalAmount
      rw [List.map_cons, List.sum_cons]
      exact add_pos_of_pos_of_nonneg h1 h2
    rw [← hts, h0] at h3
    exact lt_irrefl 0 h3
  have hcat : category_totals st = [] := by
    unfold category_totals groupTotals sortedKeys
    rw [hrows]
    rfl
  have hd : dining_spent st = 0 := by
    unfold dining_spent
    rw [hcat]
    rfl
  have he : entertainment_spent st = 0 := by
    unfold entertainment_spent
    rw [hcat]
    rfl
  simp only [get_spending_insights, hd, he, h0]
  norm_num

/-- Witness for C9: the fresh empty store yields only the affirmation. -/
theorem C9_zero_total_witness : get_spending_insights initialStore = [affirmMsg] :=
  C9_zero_total initialStore (by intro e he; cases he) rfl

/-- C4 (amended): the dining message is emitted exactly when the combined
amount of all categories matching the dining pattern exceeds 20% of total
spending, the entertainment message exactly when the combined matching
amount exceeds 15%, and when both fire the dining message comes first. -/
theorem C4_insights (st : Store) :
    (diningMsg ∈ get_spending_insights st ↔ dining_spent st > total_spent st * (1 / 5)) ∧
    (entertainmentMsg ∈ get_spending_insights st ↔
      entertainment_spent st > total_spent st * (3 / 20)) ∧
    (dining_spent st > total_spent st * (1 / 5) →
      entertainment_spent st > total_spent st * (3 / 20) →
      get_spending_insights st = [diningMsg, entertainmentMsg]) := by
  have h12 : diningMsg ≠ entertainmentMsg := by decide
  have h1a : diningMsg ≠ affirmMsg := by decide
  have h2a : entertainmentMsg ≠ affirmMsg := by decide
  simp only [get_spending_insights]
  by_cases h1 : dining_spent st > total_spent st * (1 / 5) <;>
    by_cases h2 : entertainment_spent st > total_spent st * (3 / 20)
  · rw [if_pos h1, if_pos h2, if_neg (by simp)]
    refine ⟨?_, ?_, fun _ _ => rfl⟩
    · simp
      simpa using h1
    · simp
      simpa using h2
  · rw [if_pos h1, if_neg h2, if_neg (by simp)]
    refine ⟨?_, ?_, fun _ hc2 => absurd hc2 h2⟩
    · simp
      simpa using h1
    · simp [h12.symm]
      simpa using h2
  · rw [if_neg h1, if_pos h2, if_neg (by simp)]
    refine ⟨?_, ?_, fun hc1 _ => absurd hc1 h1⟩
    · simp [h12]
      simpa using h1
    · simp
      simpa using h2
  · rw [if_neg h1, if_neg h2, if_pos (by simp)]
    refine ⟨?_, ?_, fun hc1 _ => absurd hc1 h1⟩
    · simp [h1a]
      simpa using h1
    · simp [h2a]
      simpa using h2

/-! ### Evaluating the pipelines on the concrete stores -/

/-- Category keys of the demo store, sorted. -/
theorem demo_keys :
    sortedKeys strLeb Expense.category demoStore.rows = [("Dining Out"), ("Food")] := by decide

/-- Dining group of the demo store. -/
theorem demo_fiber_dining :
    fiberSum Expense.category demoStore.rows ("Dining Out") = 40 := by
  simp +decide [fiberSum, demoStore]

/-- Food group of the demo store. -/
theorem demo_fiber_food :
    fiberSum Expense.category demoStore.rows ("Food") = 60 := by
  simp +decide [fiberSum, demoStore]
  norm_num

/-- Category totals of the demo store. -/
theorem demo_cats :
    category_totals demoStore = [(("Dining Out" : String), (40 : ℚ)), (("Food" : String), 60)] := by
  unfold category_totals groupTotals
  rw [demo_keys]
  simp only [List.map_cons, List.map_nil]
  rw [demo_fiber_dining, demo_fiber_food]

/-- Total spending of the demo store. -/
theorem demo_total : total_spent demoStore = 100 := by
  unfold total_spent
  rw [demo_cats]
  simp
  norm_num

/-- Combined dining spending of the demo store. -/
theorem demo_dining : dining_spent demoStore = 40 := by
  unfold dining_spent
  rw [demo_cats]
  simp +decide

/-- Witness for C4 (amended): in the demo store the dining share is 40%,
so the dining message is emitted. -/
theorem C4_insights_witness : diningMsg ∈ get_spending_insights demoStore :=
  (C4_insights demoStore).1.mpr (by rw [demo_dining, demo_total]; norm_num)

/-- Two separate dining categories, each at 15% of spending, combining to
30%. -/
def c4Store : Store :=
  { rows := [{ id := 1, date := "2024-01-05", category := "Dining Out A", amount := 15 },
             { id := 2, date := "2024-01-06", category := "Dining Out B", amount := 15 },
             { id := 3, date := "2024-01-07", category := "Other", amount := 70 }],
    seq := 3 }

/-- Category keys of the two-dining store, sorted. -/
theorem c4_keys :
    sortedKeys strLeb Expense.category c4Store.rows
      = [("Dining Out A"), ("Dining Out B"), ("Other")] := by decide

/-- First dining group of the two-dining store. -/
theorem c4_fiber_a :
    fiberSum Expense.category c4Store.rows ("Dining Out A") = 15 := by
  simp +decide [fiberSum, c4Store]

/-- Second dining group of the two-dining store. -/
theorem c4_fiber_b :
    fiberSum Expense.category c4Store.rows ("Dining Out B") = 15 := by
  simp +decide [fiberSum, c4Store]

/-- Remaining group of the two-dining store. -/
theorem c4_fiber_other :
    fiberSum Expense.category c4Store.rows ("Other") = 70 := by
  simp +decide [fiberSum, c4Store]

/-- Category totals of the two-dining store. -/
theorem c4_cats :
    category_totals c4Store
      = [(("Dining Out A" : String), (15 : ℚ)), (("Dining Out B" : String), 15),
         (("Other" : String), 70)] := by
  unfold category_totals groupTotals
  rw [c4_keys]
  simp only [List.map_cons, List.map_nil]
  rw [c4_fiber_a, c4_fiber_b, c4_fiber_other]

/-- Total spending of the two-dining store. -/
theorem c4_total : total_spent c4Store = 100 := by
  unfold total_spent
  rw [c4_cats]
  simp
  norm_num

/-- Combined dining spending of the two-dining store. -/
theorem c4_dining : dining_spent c4Store = 30 := by
  unfold dining_spent
  rw [c4_cats]
  simp +decide
  norm_num

/-- Entertainment spending of the two-dining store. -/
theorem c4_ent : entertainment_spent c4Store = 0 := by
  unfold entertainment_spent
  rw [c4_cats]
  simp +decide

/-- Insights of the two-dining store: the dining rule fires on the
combined 30% share. -/
theorem c4_insights : get_spending_insights c4Store = [diningMsg] := by
  have hcond1 : dining_spent c4Store > total_spent c4Store * (1 / 5) := by
    rw [c4_dining, c4_total]
    norm_num
  have hcond2 : ¬ entertainment_spent c4Store > total_spent c4Store * (3 / 20) := by
    rw [c4_ent, c4_total]
    norm_num
  simp only [get_spending_insights]
  rw [if_pos hcond1, if_neg hcond2, if_neg (by simp)]
  simp

/-- Counterexample for C4 as stated: the dining message is emitted for the
two-dining store although no single matching category exceeds 20% of
total spending — the code compares the combined matching amount. -/
theorem C4_counterexample :
    ¬ ((diningMsg ∈ get_spending_insights c4Store) ↔
      ∃ p ∈ category_totals c4Store, containsCI p.1 ("Dining Out") = true ∧
        total_spent c4Store * (1 / 5) < p.2) := by
  intro hiff
  have hmem : diningMsg ∈ get_spending_insights c4Store := by
    rw [c4_insights]
    exact List.mem_singleton.mpr rfl
  obtain ⟨p, hp, hci, hgt⟩ := hiff.mp hmem
  rw [c4_cats] at hp
  rw [c4_total] at hgt
  simp only [List.mem_cons, List.not_mem_nil, or_false] at hp
  rcases hp with rfl | rfl | rfl
  · norm_num at hgt
  · norm_num at hgt
  · exact absurd hci (by decide)

/-- C6 (amended): the CSV output is the header record followed by one
record per row in sequence order, fields in the table's native order; on
success the whole output is committed; an unopenable destination commits
nothing and reports the error; in every case the error is reported back
(never raised) and the committed data is a prefix of the full output — a
mid-write failure may leave such a partial prefix behind. -/
theorem C6_export_csv (rows : List Expense) (d : Destination) :
    (csvLines rows).head? = some (csvRow [("ID"), ("Date"), ("Category"), ("Amount")]) ∧
    (csvLines rows).length = rows.length + 1 ∧
    (csvLines rows).tail = rows.map (fun e => csvRow (expenseFields e)) ∧
    (∃ k, (export_to_csv rows d).2 = (csvLines rows).take k) ∧
    ((export_to_csv rows d).1 = ExportStatus.success → (export_to_csv rows d).2 = csvLines rows) ∧
    (d = Destination.unopenable →
      (export_to_csv rows d).1 = ExportStatus.ioError ∧ (export_to_csv rows d).2 = []) := by
  refine ⟨rfl, by simp [csvLines], rfl, ?_, ?_, ?_⟩
  · cases d with
    | writable => exact ⟨(csvLines rows).length, ((csvLines rows).take_length).symm⟩
    | unopenable => exact ⟨0, rfl⟩
    | failsAfter n =>
        by_cases hle : (csvLines rows).length ≤ n
        · refine ⟨(csvLines rows).length, ?_⟩
          simp [export_to_csv, hle, List.take_length]
        · refine ⟨n, ?_⟩
          simp [export_to_csv, hle]
  · cases d with
    | writable => intro _; rfl
    | unopenable => intro hc; exact ExportStatus.noConfusion hc
    | failsAfter n =>
        intro hsucc
        by_cases hle : (csvLines rows).length ≤ n
        · simp [export_to_csv, hle]
        · exfalso
          have hio : (export_to_csv rows (Destination.failsAfter n)).1 = ExportStatus.ioError := by
            simp [export_to_csv, hle]
          rw [hio] at hsucc
          exact ExportStatus.noConfusion hsucc
  · intro hd
    subst hd
    exact ⟨rfl, rfl⟩

/-- Witness for C6 (amended): an unopenable destination reports the error
and commits nothing. -/
theorem C6_export_csv_witness :
    (export_to_csv [] Destination.unopenable).1 = ExportStatus.ioError ∧
    (export_to_csv [] Destination.unopenable).2 = [] :=
  (C6_export_csv [] Destination.unopenable).2.2.2.2.2 rfl

/-- Counterexample for C6 as stated: against a destination that fails
after one committed record, the export of the demo rows reports the error
but the header record has already been committed — neither "full output
written" nor "failure before any data committed" holds. -/
theorem C6_counterexample :
    ¬ (((export_to_csv demoStore.rows (Destination.failsAfter 1)).1 = ExportStatus.success ∧
        (export_to_csv demoStore.rows (Destination.failsAfter 1)).2 = csvLines demoStore.rows) ∨
       ((export_to_csv demoStore.rows (Destination.failsAfter 1)).1 = ExportStatus.ioError ∧
        (export_to_csv demoStore.rows (Destination.failsAfter 1)).2 = [])) := by
  decide
